import Mathlib

/-!
Shallow embedding of `src/fixed_sincos/fixed_sincos.c` (fixed-point sine and
cosine approximations, Joe Tsai 2012) and proofs about it.

Modelling conventions:
* C `uint64_t` values are Lean `Nat` together with explicit reduction
  `% 18446744073709551616` (= 2^64) wherever the C computation could wrap.
* C `int64_t` values are Lean `Int`; the implementation-defined conversion of
  a `uint64_t` to `int64_t` is two's-complement wrap-around, modelled by
  `toInt64`.  Arithmetic right shift `>> k` on `int64_t` is floor division,
  which is Lean's `Int` division `/ 2^k` (Euclidean division by a positive
  number is floor division); `& 1` on `int64_t` is `% 2` (Euclidean remainder,
  always non-negative, matching the C bit test).
* The `assert` in `clamp_overflow` is modelled by returning `Option Int`:
  `none` means the assertion fired and the computation aborted.
* Numeric literals: 262144 = 2^18, 131072 = 2^17, 524288 = 2^19,
  1048576 = 2^20, 18446744073709551616 = 2^64.
-/

namespace FixedSincos

/-- 2^64, the `uint64_t` modulus. -/
def M64 : Nat := 18446744073709551616

/-- Conversion of a `uint64_t` bit pattern (a `Nat` already reduced mod 2^64
or known smaller) to `int64_t`: two's-complement wrap-around. -/
def toInt64 (n : Nat) : Int :=
  if n % M64 < 9223372036854775808 then ((n % M64 : Nat) : Int)
  else ((n % M64 : Nat) : Int) - 18446744073709551616

/-- The C cast `(uint64_t)value` applied to an `int64_t` input: the
non-negative residue mod 2^64. -/
def uof (v : Int) : Nat := (v % 18446744073709551616).toNat

/-- The C statement `sum = ~sum + 1;` on `int64_t`: two's-complement
negation with wrap-around. -/
def negWrap (s : Int) : Int := toInt64 ((-s % 18446744073709551616).toNat)

/-- `clamp_overflow` (fixed_sincos.c lines 29-44).  `high0`/`high1` are the
bits at positions `width` and `width-1` of `value`; if they differ the value
is replaced by the two's-complement minimum `-2^(width-1)` (when bit `width`
is set, C: `-1 << width-1`) or maximum `2^(width-1) - 1` (C:
`(1 << width-1) - 1`).  The final `assert` demands `value >> width-1` be all
zeros or all ones; failure is modelled as `none`. -/
def clamp_overflow (value : Int) (width : Nat) : Option Int :=
  let h0 : Int := value / 2 ^ width % 2
  let h1 : Int := value / 2 ^ (width - 1) % 2
  let v2 : Int :=
    if h0 ≠ h1 then (if h0 = 1 then -(2 ^ (width - 1)) else 2 ^ (width - 1) - 1)
    else value
  let high : Int := v2 / 2 ^ (width - 1)
  if high = 0 ∨ high = -1 then some v2 else none

/-- Bit 19 of the input, C: `bool high0 = (((uint64_t)value >> 19) & 0x01);`
(identical in `sine`, line 81, and `cosine`, line 142). -/
def high0 (v : Int) : Nat := uof v / 524288 % 2

/-- Bit 18 of the input, C: `bool high1 = (((uint64_t)value >> 18) & 0x01);`
(lines 82 and 143). -/
def high1 (v : Int) : Nat := uof v / 262144 % 2

/-- The folded low 18 bits, C lines 83-86 (and identically 144-147):
`x1 = value & 0x3ffff; if (high1) x1 = ((1 << 18) - x1) & 0x3ffff;`.
Since `x1 ≤ 2^18` the `uint64_t` subtraction cannot wrap, so plain `Nat`
subtraction is faithful. -/
def fold (v : Int) : Nat :=
  let x : Nat := uof v % 262144
  if high1 v = 1 then (262144 - x) % 262144 else x

/-- The `sine` accumulator `sum` at scale 2^18 as a function of the folded
value `x1`, C lines 91-103: the odd power ladder, the four constant
multiplications, and the alternating `uint64_t` sum `kx1 - kx3 + kx5 - kx7`
(evaluated left to right with wrap-around; `a - b` in `uint64_t` is
`(a + (2^64 - b)) % 2^64`), finally converted to `int64_t`. -/
def sineSum18x (x1 : Nat) : Int :=
  let x2 : Nat := x1 * x1 % M64 / 262144
  let x3 : Nat := x2 * x1 % M64 / 262144
  let x5 : Nat := x2 * x3 % M64 / 262144
  let x7 : Nat := x2 * x5 % M64 / 262144
  let kx1 : Nat := 205887 * x1 % M64 / 131072
  let kx3 : Nat := 169336 * x3 % M64 / 262144
  let kx5 : Nat := 167014 * x5 % M64 / 2097152
  let kx7 : Nat := 150000 * x7 % M64 / 33554432
  toInt64 (((kx1 + (M64 - kx3)) % M64 + kx5) % M64 + (M64 - kx7))

/-- The `sine` accumulator `sum` at scale 2^18 at input `v`. -/
def sineSum18 (v : Int) : Int := sineSum18x (fold v)

/-- The `sine` value just before sign reflection: C lines 104-109,
`sum = sum >> 1;` then `if (one) sum = 1 << 17;` where
`one = (x1 == 0) && high1` (line 88). -/
def sinePre (v : Int) : Int :=
  if fold v = 0 ∧ high1 v = 1 then 131072 else sineSum18 v / 2

/-- `sine` (fixed_sincos.c lines 69-114): reflection by `negative = high0`
(lines 87, 110-112) followed by the 18-bit overflow clamp (line 113). -/
def sine (v : Int) : Option Int :=
  clamp_overflow (if high0 v = 1 then negWrap (sinePre v) else sinePre v) 18

/-- The `cosine` accumulator `sum` at scale 2^18, C lines 152-164: the even
power ladder and `((int64_t)1 << 18) - kx2 + kx4 - kx6 + kx8`, which by C's
usual arithmetic conversions is a `uint64_t` computation (left to right,
wrap-around) converted to `int64_t`.  Stated as a function of the folded value `x1`. -/
def cosineSum18x (x1 : Nat) : Int :=
  let x2 : Nat := x1 * x1 % M64 / 262144
  let x4 : Nat := x2 * x2 % M64 / 262144
  let x6 : Nat := x4 * x2 % M64 / 262144
  let x8 : Nat := x4 * x4 % M64 / 262144
  let kx2 : Nat := 161704 * x2 % M64 / 131072
  let kx4 : Nat := 132996 * x4 % M64 / 524288
  let kx6 : Nat := 175016 * x6 % M64 / 8388608
  let kx8 : Nat := 241700 * x8 % M64 / 268435456
  toInt64 ((((262144 + (M64 - kx2)) % M64 + kx4) % M64 + (M64 - kx6)) % M64 + kx8)

/-- The `cosine` accumulator `sum` at scale 2^18 at input `v`. -/
def cosineSum18 (v : Int) : Int := cosineSum18x (fold v)

/-- The `cosine` value just before sign reflection: C lines 165-170,
`sum = sum >> 1;` then `if (zero) sum = 0;` where
`zero = (x1 == 0) && high1` (line 149). -/
def cosinePre (v : Int) : Int :=
  if fold v = 0 ∧ high1 v = 1 then 0 else cosineSum18 v / 2

/-- `cosine` (fixed_sincos.c lines 130-175): reflection by
`negative = high0 ^ high1` (lines 148, 171-173) followed by the 18-bit
overflow clamp (line 174). -/
def cosine (v : Int) : Option Int :=
  clamp_overflow
    (if high0 v ≠ high1 v then negWrap (cosinePre v) else cosinePre v) 18

example : (-5 : Int) / 2 = -3 := by decide
example : sine 0 = some 0 := by decide
example : sine 262144 = some 131071 := by decide
example : cosine 0 = some 131071 := by decide
example : cosine 262144 = some 0 := by decide
example : cosine 524288 = some (-131072) := by decide
example : sine 786432 = some (-131072) := by decide

/-! ### Arithmetic bridge lemmas -/

lemma uof_lt (v : Int) : uof v < 18446744073709551616 := by
  unfold uof; omega

lemma uof_natCast (n : Nat) (h : n < 18446744073709551616) : uof (n : Int) = n := by
  unfold uof; omega

lemma negWrap_eq (s : Int) (h1 : -4611686018427387904 ≤ s)
    (h2 : s ≤ 4611686018427387904) : negWrap s = -s := by
  unfold negWrap toInt64 M64; split <;> omega

/-- The left-to-right `uint64_t` evaluation of `a - b + c - d` converted to
`int64_t` equals the exact integer value when the operands are small. -/
lemma toInt64_chain4 (a b c d : Nat)
    (ha : a < 4611686018427387904) (hb : b < 4611686018427387904)
    (hc : c < 4611686018427387904) (hd : d < 4611686018427387904) :
    toInt64 (((a + (M64 - b)) % M64 + c) % M64 + (M64 - d)) =
      (a : Int) - b + c - d := by
  unfold toInt64 M64; split <;> omega

/-- The left-to-right `uint64_t` evaluation of `a - b + c - d + e` converted
to `int64_t` equals the exact integer value when the operands are small. -/
lemma toInt64_chain5 (a b c d e : Nat)
    (ha : a < 2305843009213693952) (hb : b < 2305843009213693952)
    (hc : c < 2305843009213693952) (hd : d < 2305843009213693952)
    (he : e < 2305843009213693952) :
    toInt64 ((((a + (M64 - b)) % M64 + c) % M64 + (M64 - d)) % M64 + e) =
      (a : Int) - b + c - d + e := by
  unfold toInt64 M64; split <;> omega

lemma fold_lt (v : Int) : fold v < 262144 := by
  unfold fold; dsimp only; split <;> omega

/-- One rung of the power ladder: the product of two 18-bit values, reduced
mod 2^64 (a no-op) and rescaled by `>> 18`, is again an 18-bit value. -/
lemma mulStep_lt {a b : Nat} (ha : a < 262144) (hb : b < 262144) :
    a * b % M64 / 262144 < 262144 := by
  have h : a * b ≤ 262143 * 262143 := Nat.mul_le_mul (by omega) (by omega)
  unfold M64; omega

/-- Decomposition of the `sine` accumulator: it is an exact 4-term integer
combination of bounded non-negative terms. -/
lemma sineSum18x_eq (x1 : Nat) (hx1 : x1 < 262144) :
    ∃ a b c d : Nat, sineSum18x x1 = (a : Int) - b + c - d ∧
      a ≤ 411773 ∧ b ≤ 169335 ∧ c ≤ 20876 ∧ d ≤ 1171 := by
  simp only [sineSum18x]
  have p2 : x1 * x1 ≤ 262143 * 262143 := Nat.mul_le_mul (by omega) (by omega)
  have m2 : x1 * x1 % M64 = x1 * x1 := by unfold M64; omega
  rw [m2]
  have hx2 : x1 * x1 / 262144 < 262144 := by omega
  set x2 : Nat := x1 * x1 / 262144 with hx2d
  have p3 : x2 * x1 ≤ 262143 * 262143 := Nat.mul_le_mul (by omega) (by omega)
  have m3 : x2 * x1 % M64 = x2 * x1 := by unfold M64; omega
  rw [m3]
  have hx3 : x2 * x1 / 262144 < 262144 := by omega
  set x3 : Nat := x2 * x1 / 262144 with hx3d
  have p5 : x2 * x3 ≤ 262143 * 262143 := Nat.mul_le_mul (by omega) (by omega)
  have m5 : x2 * x3 % M64 = x2 * x3 := by unfold M64; omega
  rw [m5]
  have hx5 : x2 * x3 / 262144 < 262144 := by omega
  set x5 : Nat := x2 * x3 / 262144 with hx5d
  have p7 : x2 * x5 ≤ 262143 * 262143 := Nat.mul_le_mul (by omega) (by omega)
  have m7 : x2 * x5 % M64 = x2 * x5 := by unfold M64; omega
  rw [m7]
  have hx7 : x2 * x5 / 262144 < 262144 := by omega
  set x7 : Nat := x2 * x5 / 262144 with hx7d
  have mk1 : 205887 * x1 % M64 = 205887 * x1 := by unfold M64; omega
  have mk3 : 169336 * x3 % M64 = 169336 * x3 := by unfold M64; omega
  have mk5 : 167014 * x5 % M64 = 167014 * x5 := by unfold M64; omega
  have mk7 : 150000 * x7 % M64 = 150000 * x7 := by unfold M64; omega
  rw [mk1, mk3, mk5, mk7]
  have hkx1 : 205887 * x1 / 131072 ≤ 411773 := by omega
  have hkx3 : 169336 * x3 / 262144 ≤ 169335 := by omega
  have hkx5 : 167014 * x5 / 2097152 ≤ 20876 := by omega
  have hkx7 : 150000 * x7 / 33554432 ≤ 1171 := by omega
  exact ⟨_, _, _, _,
    toInt64_chain4 _ _ _ _ (by omega) (by omega) (by omega) (by omega),
    hkx1, hkx3, hkx5, hkx7⟩

/-- Decomposition of the `cosine` accumulator: it is an exact 5-term integer
combination (with leading constant 2^18) of bounded non-negative terms. -/
lemma cosineSum18x_eq (x1 : Nat) (hx1 : x1 < 262144) :
    ∃ b c d e : Nat, cosineSum18x x1 = 262144 - (b : Int) + c - d + e ∧
      b ≤ 323407 ∧ c ≤ 66498 ∧ d ≤ 5469 ∧ e ≤ 236 := by
  simp only [cosineSum18x]
  have p2 : x1 * x1 ≤ 262143 * 262143 := Nat.mul_le_mul (by omega) (by omega)
  have m2 : x1 * x1 % M64 = x1 * x1 := by unfold M64; omega
  rw [m2]
  have hx2 : x1 * x1 / 262144 < 262144 := by omega
  set x2 : Nat := x1 * x1 / 262144 with hx2d
  have p4 : x2 * x2 ≤ 262143 * 262143 := Nat.mul_le_mul (by omega) (by omega)
  have m4 : x2 * x2 % M64 = x2 * x2 := by unfold M64; omega
  rw [m4]
  have hx4 : x2 * x2 / 262144 < 262144 := by omega
  set x4 : Nat := x2 * x2 / 262144 with hx4d
  have p6 : x4 * x2 ≤ 262143 * 262143 := Nat.mul_le_mul (by omega) (by omega)
  have m6 : x4 * x2 % M64 = x4 * x2 := by unfold M64; omega
  rw [m6]
  have hx6 : x4 * x2 / 262144 < 262144 := by omega
  set x6 : Nat := x4 * x2 / 262144 with hx6d
  have p8 : x4 * x4 ≤ 262143 * 262143 := Nat.mul_le_mul (by omega) (by omega)
  have m8 : x4 * x4 % M64 = x4 * x4 := by unfold M64; omega
  rw [m8]
  have hx8 : x4 * x4 / 262144 < 262144 := by omega
  set x8 : Nat := x4 * x4 / 262144 with hx8d
  have mk2 : 161704 * x2 % M64 = 161704 * x2 := by unfold M64; omega
  have mk4 : 132996 * x4 % M64 = 132996 * x4 := by unfold M64; omega
  have mk6 : 175016 * x6 % M64 = 175016 * x6 := by unfold M64; omega
  have mk8 : 241700 * x8 % M64 = 241700 * x8 := by unfold M64; omega
  rw [mk2, mk4, mk6, mk8]
  have hkx2 : 161704 * x2 / 131072 ≤ 323407 := by omega
  have hkx4 : 132996 * x4 / 524288 ≤ 66498 := by omega
  have hkx6 : 175016 * x6 / 8388608 ≤ 5469 := by omega
  have hkx8 : 241700 * x8 / 268435456 ≤ 236 := by omega
  exact ⟨_, _, _, _,
    toInt64_chain5 262144 _ _ _ _ (by omega) (by omega) (by omega) (by omega)
      (by omega),
    hkx2, hkx4, hkx6, hkx8⟩

lemma sinePre_bounds (v : Int) : -85253 ≤ sinePre v ∧ sinePre v ≤ 216325 := by
  obtain ⟨a, b, c, d, he, ha, hb, hc, hd⟩ := sineSum18x_eq (fold v) (fold_lt v)
  unfold sinePre sineSum18
  rw [he]
  split <;> omega

lemma cosinePre_bounds (v : Int) :
    -33367 ≤ cosinePre v ∧ cosinePre v ≤ 164440 := by
  obtain ⟨b, c, d, e, he, hb, hc, hd, hee⟩ := cosineSum18x_eq (fold v) (fold_lt v)
  unfold cosinePre cosineSum18
  rw [he]
  split <;> omega

/-! ### The 18-bit overflow clamp -/

/-- Full characterization of `clamp_overflow` at width 18 on inputs whose
bits above position 18 are a pure sign extension of bit 18 (the 19-bit
signed range, which callers guarantee): values already in 18-bit range pass
through, larger values saturate to 131071, smaller ones to -131072; the
assertion never fires. -/
lemma clamp18_eq (x : Int) (h1 : -262144 ≤ x) (h2 : x < 262144) :
    clamp_overflow x 18 =
      some (if x < -131072 then -131072 else if 131072 ≤ x then 131071 else x) := by
  unfold clamp_overflow
  simp only [show (2 : Int) ^ 18 = 262144 from by norm_num,
    show (2 : Int) ^ (18 - 1) = 131072 from by norm_num]
  split_ifs <;> first | rfl | omega

lemma sine_result (v : Int) :
    ∃ r, sine v = some r ∧ -131072 ≤ r ∧ r ≤ 131071 := by
  have hp := sinePre_bounds v
  unfold sine
  by_cases hneg : high0 v = 1
  · rw [if_pos hneg, negWrap_eq _ (by omega) (by omega),
      clamp18_eq _ (by omega) (by omega)]
    refine ⟨_, rfl, ?_, ?_⟩ <;> split_ifs <;> omega
  · rw [if_neg hneg, clamp18_eq _ (by omega) (by omega)]
    refine ⟨_, rfl, ?_, ?_⟩ <;> split_ifs <;> omega

lemma cosine_result (v : Int) :
    ∃ r, cosine v = some r ∧ -131072 ≤ r ∧ r ≤ 131071 := by
  have hp := cosinePre_bounds v
  unfold cosine
  by_cases hneg : high0 v ≠ high1 v
  · rw [if_pos hneg, negWrap_eq _ (by omega) (by omega),
      clamp18_eq _ (by omega) (by omega)]
    refine ⟨_, rfl, ?_, ?_⟩ <;> split_ifs <;> omega
  · rw [if_neg hneg, clamp18_eq _ (by omega) (by omega)]
    refine ⟨_, rfl, ?_, ?_⟩ <;> split_ifs <;> omega

/-! ### Division helpers for the general-width clamp contract -/

lemma ediv_eq_one {x n : Int} (hn : 0 < n) (h1 : n ≤ x) (h2 : x < 2 * n) :
    x / n = 1 := by
  have h0 : (x - n) / n = 0 := Int.ediv_eq_zero_of_lt (by omega) (by omega)
  have e : x = x - n + 1 * n := by ring
  rw [e, Int.add_mul_ediv_right _ _ hn.ne', h0]; ring

lemma ediv_eq_negone {x n : Int} (hn : 0 < n) (h1 : -n ≤ x) (h2 : x < 0) :
    x / n = -1 := by
  have h0 : (x + n) / n = 0 := Int.ediv_eq_zero_of_lt (by omega) (by omega)
  have e : x = x + n + -1 * n := by ring
  rw [e, Int.add_mul_ediv_right _ _ hn.ne', h0]; ring

lemma ediv_eq_negtwo {x n : Int} (hn : 0 < n) (h1 : -(2 * n) ≤ x)
    (h2 : x < -n) : x / n = -2 := by
  have h0 : (x + 2 * n) / n = 0 := Int.ediv_eq_zero_of_lt (by omega) (by omega)
  have e : x = x + 2 * n + -2 * n := by ring
  rw [e, Int.add_mul_ediv_right _ _ hn.ne', h0]; ring

lemma neg_pow_ediv_pow (n : Int) (hn : 0 < n) : -n / n = -1 :=
  ediv_eq_negone hn (le_refl _) (by omega)

/-- The range of values whose bits above position `w` are a pure sign
extension of bit `w`: shifting out `w` bits leaves all zeros or all ones
exactly on the signed `(w+1)`-bit range. -/
lemma signext_range {x : Int} {w : Nat} (h : x / 2 ^ w = 0 ∨ x / 2 ^ w = -1) :
    -(2 ^ w) ≤ x ∧ x < 2 ^ w := by
  have hpos : (0 : Int) < 2 ^ w := pow_pos (by norm_num) w
  have hd := Int.ediv_add_emod x (2 ^ w)
  have hm1 := Int.emod_nonneg x hpos.ne'
  have hm2 := Int.emod_lt_of_pos x hpos
  rcases h with h | h <;> rw [h] at hd <;> omega

/-- C4: `clamp_overflow` satisfies its stated contract.  The precondition
"bits above position `w` are a pure sign extension of bit `w`" is
`x / 2^w = 0 ∨ x / 2^w = -1` (shifting out `w` bits leaves all zeros or all
ones).  If the bits at positions `w` and `w-1` differ the result is
`-2^(w-1)` when bit `w` is set and `2^(w-1) - 1` otherwise; if they agree
the value is returned unchanged; in all cases the result shifted right by
`w-1` is all zeros or all ones. -/
theorem clamp_overflow_contract (x : Int) (w : Nat) (hw : 1 ≤ w)
    (hsign : x / 2 ^ w = 0 ∨ x / 2 ^ w = -1) :
    ∃ r, clamp_overflow x w = some r ∧
      (x / 2 ^ w % 2 ≠ x / 2 ^ (w - 1) % 2 →
        r = if x / 2 ^ w % 2 = 1 then -(2 ^ (w - 1)) else 2 ^ (w - 1) - 1) ∧
      (x / 2 ^ w % 2 = x / 2 ^ (w - 1) % 2 → r = x) ∧
      (r / 2 ^ (w - 1) = 0 ∨ r / 2 ^ (w - 1) = -1) := by
  obtain ⟨hlo, hhi⟩ := signext_range hsign
  have hnpos : (0 : Int) < 2 ^ (w - 1) := pow_pos (by norm_num) _
  have h2w : (2 : Int) ^ w = 2 * 2 ^ (w - 1) := by
    conv_lhs => rw [show w = (w - 1) + 1 from by omega]
    rw [pow_succ]; ring
  rw [h2w] at hlo hhi
  simp only [clamp_overflow]
  rw [h2w]
  set n : Int := 2 ^ (w - 1) with hn
  rcases lt_or_le x 0 with hx0 | hx0
  · rcases lt_or_le x (-n) with hxd | hxc
    · -- D: -2n ≤ x < -n, bits (1,0): clamp to minimum
      have d2 : x / (2 * n) = -1 :=
        ediv_eq_negone (by omega) (by omega) (by omega)
      have d1 : x / n = -2 := ediv_eq_negtwo hnpos hlo hxd
      have hm : -n / n = -1 := neg_pow_ediv_pow n hnpos
      refine ⟨-n, ?_, ?_, ?_, Or.inr (by rw [hm])⟩
      · simp [d1, d2, hm]
      · intro _; rw [d2]; norm_num
      · intro h; rw [d1, d2] at h; omega
    · -- C: -n ≤ x < 0, bits (1,1): unchanged
      have d2 : x / (2 * n) = -1 :=
        ediv_eq_negone (by omega) (by omega) hx0
      have d1 : x / n = -1 := ediv_eq_negone hnpos hxc hx0
      refine ⟨x, ?_, ?_, fun _ => rfl, Or.inr d1⟩
      · simp [d1, d2]
      · intro h; rw [d1, d2] at h; exact absurd rfl h
  · rcases lt_or_le x n with hxa | hxb
    · -- A: 0 ≤ x < n, bits (0,0): unchanged
      have d2 : x / (2 * n) = 0 := Int.ediv_eq_zero_of_lt hx0 (by omega)
      have d1 : x / n = 0 := Int.ediv_eq_zero_of_lt hx0 hxa
      refine ⟨x, ?_, ?_, fun _ => rfl, Or.inl d1⟩
      · simp [d1, d2]
      · intro h; rw [d1, d2] at h; exact absurd rfl h
    · -- B: n ≤ x < 2n, bits (0,1): clamp to maximum
      have d2 : x / (2 * n) = 0 := Int.ediv_eq_zero_of_lt hx0 hhi
      have d1 : x / n = 1 := ediv_eq_one hnpos hxb hhi
      have hm : (n - 1) / n = 0 := Int.ediv_eq_zero_of_lt (by omega) (by omega)
      refine ⟨n - 1, ?_, ?_, ?_, Or.inl (by rw [hm])⟩
      · simp [d1, d2, hm]
      · intro _; rw [d2]; norm_num
      · intro h; rw [d1, d2] at h; omega

/-- C4 witness: the contract applied to the concrete accumulator 200000 at
width 18 (bits 18 and 17 differ, so it saturates to 131071). -/
theorem clamp_overflow_contract_witness :
    ∃ r, clamp_overflow 200000 18 = some r ∧
      ((200000 : Int) / 2 ^ 18 % 2 ≠ (200000 : Int) / 2 ^ (18 - 1) % 2 →
        r = if (200000 : Int) / 2 ^ 18 % 2 = 1 then -(2 ^ (18 - 1))
            else 2 ^ (18 - 1) - 1) ∧
      ((200000 : Int) / 2 ^ 18 % 2 = (200000 : Int) / 2 ^ (18 - 1) % 2 →
        r = 200000) ∧
      (r / 2 ^ (18 - 1) = 0 ∨ r / 2 ^ (18 - 1) = -1) :=
  clamp_overflow_contract 200000 18 (by norm_num) (Or.inl (by decide))

/-- C8 counterexample: the accumulator 2^17 at width 18 violates the
clamp's two-bit sign-consistency check (bits 18 and 17 differ), yet
`clamp_overflow` returns a saturated value instead of aborting. -/
theorem clamp_twobit_mismatch_returns :
    (131072 : Int) / 2 ^ 18 % 2 ≠ (131072 : Int) / 2 ^ (18 - 1) % 2 ∧
    clamp_overflow 131072 18 = some 131071 := by decide

/-- C8 (amended): `clamp_overflow` aborts (the assertion fires) exactly on
accumulators whose bits at positions `w` and `w-1` agree while the bits
above are not a pure sign extension; a value that merely violates the
two-bit window check is saturated and returned normally. -/
theorem clamp_overflow_abort_iff (x : Int) (w : Nat) (_hw : 1 ≤ w) :
    clamp_overflow x w = none ↔
      x / 2 ^ w % 2 = x / 2 ^ (w - 1) % 2 ∧
      x / 2 ^ (w - 1) ≠ 0 ∧ x / 2 ^ (w - 1) ≠ -1 := by
  have hnpos : (0 : Int) < 2 ^ (w - 1) := pow_pos (by norm_num) _
  have hmax : ((2 : Int) ^ (w - 1) - 1) / 2 ^ (w - 1) = 0 :=
    Int.ediv_eq_zero_of_lt (by omega) (by omega)
  have hmin : (-(2 : Int) ^ (w - 1)) / 2 ^ (w - 1) = -1 :=
    neg_pow_ediv_pow _ hnpos
  simp only [clamp_overflow]
  by_cases hc : x / 2 ^ w % 2 ≠ x / 2 ^ (w - 1) % 2
  · rw [if_pos hc]
    by_cases hb : x / 2 ^ w % 2 = 1
    · rw [if_pos hb, hmin]; simp [hc]
    · rw [if_neg hb, hmax]; simp [hc]
  · rw [if_neg hc]
    push_neg at hc
    by_cases hchk : x / 2 ^ (w - 1) = 0 ∨ x / 2 ^ (w - 1) = -1
    · rw [if_pos hchk]; simp [hc]; tauto
    · rw [if_neg hchk]; push_neg at hchk; simp [hc]; exact hchk

/-- C8 witness: the accumulator 2^19 at width 18 has bits 18 and 17 both
zero but bit 19 set, and the clamp aborts on it. -/
theorem clamp_overflow_abort_iff_witness : clamp_overflow 524288 18 = none :=
  (clamp_overflow_abort_iff 524288 18 (by norm_num)).mpr
    ⟨by decide, by decide, by decide⟩

/-! ### Dependence on the low 20 input bits only -/

lemma low20_determines (v w : Int) (h : uof v % 1048576 = uof w % 1048576) :
    high0 v = high0 w ∧ high1 v = high1 w ∧ fold v = fold w := by
  have e0 : high0 v = high0 w := by unfold high0; omega
  have e1 : high1 v = high1 w := by unfold high1; omega
  refine ⟨e0, e1, ?_⟩
  unfold fold
  rw [e1, show uof v % 262144 = uof w % 262144 from by omega]

lemma sine_congr {v w : Int} (h : uof v % 1048576 = uof w % 1048576) :
    sine v = sine w := by
  obtain ⟨e0, e1, ef⟩ := low20_determines v w h
  unfold sine sinePre sineSum18
  rw [e0, e1, ef]

lemma cosine_congr {v w : Int} (h : uof v % 1048576 = uof w % 1048576) :
    cosine v = cosine w := by
  obtain ⟨e0, e1, ef⟩ := low20_determines v w h
  unfold cosine cosinePre cosineSum18
  rw [e0, e1, ef]

/-! ### Claim theorems about `sine` and `cosine` -/

/-- C1 counterexample: at the input representing exactly 1/4 turn
(angle = 2^18) `sine` does not return 2^17 = 131072. -/
theorem sine_quarter_not_one : sine 262144 ≠ some 131072 := by decide

/-- C1 (amended): at the quarter-turn input 2^18 `sine` returns
2^17 - 1 = 131071, the maximum 18-bit two's-complement value (decoding to
1 - 2^-17): the internal `one` correction sets the sum to 2^17, but the
final 18-bit clamp saturates it to 131071. -/
theorem sine_quarter_saturates : sine 262144 = some 131071 := by decide

/-- C2: for every valid 20-bit input, `sine` and `cosine` return values
that decode at scale 2^17 to numbers in [-1, 1]: the fixed-point results
lie in [-131072, 131072]. -/
theorem sine_cosine_range (v : Int) (_hv0 : 0 ≤ v) (_hv1 : v < 1048576) :
    ∃ s c, sine v = some s ∧ cosine v = some c ∧
      -131072 ≤ s ∧ s ≤ 131072 ∧ -131072 ≤ c ∧ c ≤ 131072 := by
  obtain ⟨s, hs, hs1, hs2⟩ := sine_result v
  obtain ⟨c, hc, hc1, hc2⟩ := cosine_result v
  exact ⟨s, c, hs, hc, hs1, by omega, hc1, by omega⟩

/-- C2 witness: the range property at the concrete input 7. -/
theorem sine_cosine_range_witness :
    ∃ s c, sine 7 = some s ∧ cosine 7 = some c ∧
      -131072 ≤ s ∧ s ≤ 131072 ∧ -131072 ≤ c ∧ c ≤ 131072 :=
  sine_cosine_range 7 (by norm_num) (by norm_num)

/-- C3: `sine` and `cosine` are total on the 20-bit domain: both always
return a value, i.e. the overflow clamp's internal assertion (modelled by
the `none` result) is unreachable from these callers. -/
theorem sine_cosine_total (v : Int) (_hv0 : 0 ≤ v) (_hv1 : v < 1048576) :
    (∃ s, sine v = some s) ∧ ∃ c, cosine v = some c := by
  obtain ⟨s, hs, _, _⟩ := sine_result v
  obtain ⟨c, hc, _, _⟩ := cosine_result v
  exact ⟨⟨s, hs⟩, ⟨c, hc⟩⟩

/-- C3 witness: totality at the concrete input 99999. -/
theorem sine_cosine_total_witness :
    ((∃ s, sine 99999 = some s) ∧ ∃ c, cosine 99999 = some c) :=
  sine_cosine_total 99999 (by norm_num) (by norm_num)

/-- C6: at the input representing exactly 1/4 turn (angle = 2^18),
`cosine` returns exactly 0. -/
theorem cosine_quarter_zero : cosine 262144 = some 0 := by decide

/-- C7 counterexample: at input 0 `cosine` does not return exactly
131072 = 2^17. -/
theorem cosine_zero_not_one : cosine 0 ≠ some 131072 := by decide

/-- C7 (amended): at input angle 0, `sine` returns exactly 0 and `cosine`
returns 131071 = 2^17 - 1: the polynomial sum is exactly 2^17 (its error at
x = 0 is zero), but the final 18-bit clamp saturates 2^17 to 131071. -/
theorem sine_cosine_at_zero : sine 0 = some 0 ∧ cosine 0 = some 131071 := by
  exact ⟨by decide, by decide⟩

/-- C9: for every 20-bit input the returned values of both functions lie in
the signed 18-bit range [-131072, 131071]; in particular +131072 (exact
+1.0) is never returned. -/
theorem sine_cosine_18bit (v : Int) (_hv0 : 0 ≤ v) (_hv1 : v < 1048576) :
    ∃ s c, sine v = some s ∧ cosine v = some c ∧
      -131072 ≤ s ∧ s ≤ 131071 ∧ -131072 ≤ c ∧ c ≤ 131071 ∧
      s ≠ 131072 ∧ c ≠ 131072 := by
  obtain ⟨s, hs, hs1, hs2⟩ := sine_result v
  obtain ⟨c, hc, hc1, hc2⟩ := cosine_result v
  exact ⟨s, c, hs, hc, hs1, hs2, hc1, hc2, by omega, by omega⟩

/-- C9 witness: the 18-bit output bound at the quarter-turn input 2^18
(where the saturation to 131071 actually bites). -/
theorem sine_cosine_18bit_witness :
    ∃ s c, sine 262144 = some s ∧ cosine 262144 = some c ∧
      -131072 ≤ s ∧ s ≤ 131071 ∧ -131072 ≤ c ∧ c ≤ 131071 ∧
      s ≠ 131072 ∧ c ≠ 131072 :=
  sine_cosine_18bit 262144 (by norm_num) (by norm_num)

/-- C10: input bits at positions 20 and above are ignored: for every
64-bit input, `sine` and `cosine` agree with their values at the input
reduced mod 2^20. -/
theorem sine_cosine_mod_2_20 (v : Int)
    (_h1 : -9223372036854775808 ≤ v) (_h2 : v < 9223372036854775808) :
    sine v = sine (v % 1048576) ∧ cosine v = cosine (v % 1048576) := by
  have key : uof v % 1048576 = uof (v % 1048576) % 1048576 := by
    unfold uof; omega
  exact ⟨sine_congr key, cosine_congr key⟩

/-- C10 witness: at the out-of-domain input 3·2^20 + 2 both functions agree
with their values at 2 = (3·2^20 + 2) mod 2^20. -/
theorem sine_cosine_mod_2_20_witness :
    sine 3145730 = sine (3145730 % 1048576) ∧
    cosine 3145730 = cosine (3145730 % 1048576) :=
  sine_cosine_mod_2_20 3145730 (by norm_num) (by norm_num)

/-! ### Flipping input bit 19 (claim C5) -/

lemma mod_two_eq_of_testBit_eq {a b i : Nat} (h : a.testBit i = b.testBit i) :
    a / 2 ^ i % 2 = b / 2 ^ i % 2 := by
  rw [Nat.testBit_to_div_mod, Nat.testBit_to_div_mod] at h
  generalize a / 2 ^ i = A at h ⊢
  generalize b / 2 ^ i = B at h ⊢
  have h2 := decide_eq_decide.mp h
  by_cases hc : A % 2 = 1
  · rw [hc, h2.mp hc]
  · have hd : ¬B % 2 = 1 := fun hb => hc (h2.mpr hb)
    omega

lemma mod_two_flip_of_testBit_not {a b i : Nat}
    (h : a.testBit i = !b.testBit i) : a / 2 ^ i % 2 = 1 - b / 2 ^ i % 2 := by
  rw [Nat.testBit_to_div_mod, Nat.testBit_to_div_mod] at h
  generalize a / 2 ^ i = A at h ⊢
  generalize b / 2 ^ i = B at h ⊢
  by_cases hc : B % 2 = 1
  · simp [hc] at h; omega
  · simp [hc] at h; omega

lemma xor19_testBit18 (v : Nat) :
    (v ^^^ 524288).testBit 18 = v.testBit 18 := by
  rw [show (524288 : Nat) = 2 ^ 19 from by norm_num, Nat.testBit_xor,
    Nat.testBit_two_pow_of_ne (by norm_num : 19 ≠ 18)]
  simp

lemma xor19_testBit19 (v : Nat) :
    (v ^^^ 524288).testBit 19 = !v.testBit 19 := by
  rw [show (524288 : Nat) = 2 ^ 19 from by norm_num, Nat.testBit_xor,
    Nat.testBit_two_pow_self]
  simp [Bool.xor_comm]

lemma xor19_mod262144 (v : Nat) : (v ^^^ 524288) % 262144 = v % 262144 := by
  rw [show (262144 : Nat) = 2 ^ 18 from by norm_num]
  apply Nat.eq_of_testBit_eq
  intro j
  rw [Nat.testBit_mod_two_pow, Nat.testBit_mod_two_pow]
  by_cases hj : j < 18
  · rw [show (524288 : Nat) = 2 ^ 19 from by norm_num, Nat.testBit_xor,
      Nat.testBit_two_pow_of_ne (by omega : 19 ≠ j)]
    simp
  · simp [hj]

lemma xor19_high1 (v : Nat) (hv : v < 1048576) :
    high1 ((v ^^^ 524288 : Nat) : Int) = high1 (v : Int) := by
  have hvx : v ^^^ 524288 < 18446744073709551616 := by
    have h := Nat.xor_lt_two_pow (n := 20)
      (lt_of_lt_of_le hv (by norm_num)) (by norm_num : (524288 : Nat) < 2 ^ 20)
    omega
  unfold high1
  rw [uof_natCast v (by omega), uof_natCast _ hvx,
    show (262144 : Nat) = 2 ^ 18 from by norm_num]
  exact mod_two_eq_of_testBit_eq (xor19_testBit18 v)

lemma xor19_high0 (v : Nat) (hv : v < 1048576) :
    high0 ((v ^^^ 524288 : Nat) : Int) = 1 - high0 (v : Int) := by
  have hvx : v ^^^ 524288 < 18446744073709551616 := by
    have h := Nat.xor_lt_two_pow (n := 20)
      (lt_of_lt_of_le hv (by norm_num)) (by norm_num : (524288 : Nat) < 2 ^ 20)
    omega
  unfold high0
  rw [uof_natCast v (by omega), uof_natCast _ hvx,
    show (524288 : Nat) = 2 ^ 19 from by norm_num]
  exact mod_two_flip_of_testBit_not (xor19_testBit19 v)

lemma xor19_fold (v : Nat) (hv : v < 1048576) :
    fold ((v ^^^ 524288 : Nat) : Int) = fold (v : Int) := by
  have hvx : v ^^^ 524288 < 18446744073709551616 := by
    have h := Nat.xor_lt_two_pow (n := 20)
      (lt_of_lt_of_le hv (by norm_num)) (by norm_num : (524288 : Nat) < 2 ^ 20)
    omega
  unfold fold
  rw [uof_natCast v (by omega), uof_natCast _ hvx, xor19_high1 v hv,
    xor19_mod262144 v]

lemma xor19_sinePre (v : Nat) (hv : v < 1048576) :
    sinePre ((v ^^^ 524288 : Nat) : Int) = sinePre (v : Int) := by
  unfold sinePre sineSum18
  rw [xor19_fold v hv, xor19_high1 v hv]

lemma high0_le_one (v : Int) : high0 v ≤ 1 := by
  unfold high0; omega

/-- `clamp_overflow` at width 18 is the identity on the 18-bit range. -/
lemma clamp18_id (x : Int) (h1 : -131072 ≤ x) (h2 : x < 131072) :
    clamp_overflow x 18 = some x := by
  rw [clamp18_eq x (by omega) (by omega), if_neg (by omega), if_neg (by omega)]

/-- C5 counterexample: at v = 2^18 flipping bit 19 does not negate the
result bit-exactly: sine(2^18) = 131071 but sine(2^18 XOR 2^19) = -131072,
not -131071. -/
theorem sine_flip19_cex :
    sine ((262144 : Nat) : Int) = some 131071 ∧
    sine (((262144 : Nat) ^^^ 524288 : Nat) : Int) ≠ some (-131071) := by
  exact ⟨by decide, by decide⟩

/-- C5 (amended): flipping input bit 19 negates the `sine` result exactly
for every 20-bit input whose internal pre-reflection sum stays at or below
131071 (in particular strictly inside the 18-bit range); at the inputs where
that sum reaches exactly 2^17 = 131072 — the quarter-turn inputs and the
near-boundary inputs where the polynomial overshoots — the positive branch
saturates to 131071 while the flipped branch yields -131072, so the results
differ by one from exact negation. -/
theorem sine_flip19 (v : Nat) (hv : v < 1048576) :
    (sinePre (v : Int) ≤ 131071 →
      ∃ r, sine (v : Int) = some r ∧
        sine ((v ^^^ 524288 : Nat) : Int) = some (-r)) ∧
    (sinePre (v : Int) = 131072 →
      (sine (v : Int) = some 131071 ∧
        sine ((v ^^^ 524288 : Nat) : Int) = some (-131072)) ∨
      (sine (v : Int) = some (-131072) ∧
        sine ((v ^^^ 524288 : Nat) : Int) = some 131071)) := by
  obtain ⟨hA, hB⟩ := sinePre_bounds (v : Int)
  have hpre := xor19_sinePre v hv
  have h19 := xor19_high0 v hv
  have h01 := high0_le_one (v : Int)
  constructor
  · intro hle
    by_cases h0 : high0 (v : Int) = 1
    · have e1 : sine (v : Int) =
          clamp_overflow (negWrap (sinePre (v : Int))) 18 := by
        unfold sine; rw [if_pos h0]
      have e2 : sine ((v ^^^ 524288 : Nat) : Int) =
          clamp_overflow (sinePre (v : Int)) 18 := by
        unfold sine; rw [h19, h0, hpre, if_neg (by norm_num)]
      rw [negWrap_eq _ (by omega) (by omega),
        clamp18_id _ (by omega) (by omega)] at e1
      rw [clamp18_id _ (by omega) (by omega)] at e2
      exact ⟨-(sinePre (v : Int)), e1, by rw [e2, neg_neg]⟩
    · have h00 : high0 (v : Int) = 0 := by omega
      have e1 : sine (v : Int) = clamp_overflow (sinePre (v : Int)) 18 := by
        unfold sine; rw [if_neg h0]
      have e2 : sine ((v ^^^ 524288 : Nat) : Int) =
          clamp_overflow (negWrap (sinePre (v : Int))) 18 := by
        unfold sine; rw [h19, h00, hpre, if_pos (by norm_num)]
      rw [clamp18_id _ (by omega) (by omega)] at e1
      rw [negWrap_eq _ (by omega) (by omega),
        clamp18_id _ (by omega) (by omega)] at e2
      exact ⟨sinePre (v : Int), e1, e2⟩
  · intro hone
    by_cases h0 : high0 (v : Int) = 1
    · refine Or.inr ⟨?_, ?_⟩
      · unfold sine; rw [if_pos h0, hone]; decide
      · unfold sine; rw [h19, h0, hpre, if_neg (by norm_num), hone]; decide
    · have h00 : high0 (v : Int) = 0 := by omega
      refine Or.inl ⟨?_, ?_⟩
      · unfold sine; rw [if_neg h0, hone]; decide
      · unfold sine; rw [h19, h00, hpre, if_pos (by norm_num), hone]; decide

/-- C5 witness: the exact-negation case applied at the concrete input 5. -/
theorem sine_flip19_witness :
    ∃ r, sine ((5 : Nat) : Int) = some r ∧
      sine (((5 : Nat) ^^^ 524288 : Nat) : Int) = some (-r) :=
  (sine_flip19 5 (by norm_num)).1 (by decide)

end FixedSincos
